import Mathlib

/-!
Verification development for the SQLAlchemy-backed Telethon session store
(`telethon_sql/session.py`) and its legacy-SQLite migration procedure
(`migrate.py`).

The relational store is shallowly embedded: each table is a list of row
structures, `session.merge(...)` is an upsert keyed by the table's primary
key (replace the keyed row in place, else append), SQL `WHERE` clauses are
list filters, `ORDER BY date ASC NULLS FIRST` is a deterministic insertion
sort (SQL leaves the order of ties unspecified; the embedding fixes one
deterministic order), `.first()` is `List.head?`, and `session.get(PK)` is
`List.find?` on the key.  Python truthiness tests (`if username:`,
`if row.date:`, `if auth_key:`) are modelled explicitly: `None` and the
empty string / zero / empty bytes are falsy.
-/

open scoped List

namespace TelethonSql

/-- Row of the `entities` table.  Primary key `(session_name, id)`. -/
structure EntityRow where
  session_name : String
  id : Int
  hash : Int
  username : Option String
  phone : Option String
  name : Option String
  date : Option Int
deriving DecidableEq, Repr

/-- Row of the `sessions` table.  Primary key `session_name`.
`auth_key` is the raw key bytes (a `LargeBinary` column; `[]` models `b""`). -/
structure SessionRow where
  session_name : String
  dc_id : Option Int
  server_address : Option String
  port : Option Int
  auth_key : List Nat
  takeout_id : Option Int
deriving DecidableEq, Repr

/-- Row of the `update_state` table.  Primary key `(session_name, id)`. -/
structure UpdateStateRow where
  session_name : String
  id : Int
  pts : Int
  qts : Int
  date : Option Int
  seq : Int
deriving DecidableEq, Repr

/-- Row of the `sent_files` table.
Primary key `(session_name, md5_digest, file_size, type)`. -/
structure SentFileRow where
  session_name : String
  md5_digest : List Nat
  file_size : Int
  type : Int
  id : Int
  hash : Int
deriving DecidableEq, Repr

/-- The shared relational store: the four per-session tables.
(The single-row `version` table is bootstrap-only and carries no
per-session data, so it is not modelled.) -/
structure Store where
  sessions : List SessionRow
  entities : List EntityRow
  update_state : List UpdateStateRow
  sent_files : List SentFileRow
deriving DecidableEq, Repr

def emptyStore : Store := ⟨[], [], [], []⟩

/-! ### Upserts (`session.merge`) for each table

`session.merge(row)` with a fully populated primary key updates the existing
keyed row in place when one exists and inserts the row otherwise.  The shared
combinator `upsert` captures this; each table instantiates it with its
primary-key test. -/

/-- `session.merge`: replace every row matching the primary-key test `km`
(there is at most one in a well-keyed table), else append the new row. -/
def upsert {α : Type} (km : α → Bool) (tbl : List α) (r : α) : List α :=
  if tbl.any km then tbl.map (fun x => if km x then r else x)
  else tbl ++ [r]

/-- Primary-key test for `entities`. -/
def entityKeyMatch (sess : String) (i : Int) (x : EntityRow) : Bool :=
  x.session_name == sess && x.id == i

/-- `s.merge(Entity(...))`. -/
def mergeEntity (tbl : List EntityRow) (r : EntityRow) : List EntityRow :=
  upsert (entityKeyMatch r.session_name r.id) tbl r

/-- Primary-key test for `sessions`. -/
def sessKeyMatch (name : String) (x : SessionRow) : Bool :=
  x.session_name == name

/-- `s.merge(SessionRow(...))`. -/
def mergeSessionRow (tbl : List SessionRow) (r : SessionRow) : List SessionRow :=
  upsert (sessKeyMatch r.session_name) tbl r

/-- Primary-key test for `update_state`. -/
def updKeyMatch (sess : String) (i : Int) (x : UpdateStateRow) : Bool :=
  x.session_name == sess && x.id == i

/-- `s.merge(UpdateState(...))`. -/
def mergeUpdateState (tbl : List UpdateStateRow) (r : UpdateStateRow) : List UpdateStateRow :=
  upsert (updKeyMatch r.session_name r.id) tbl r

/-- Primary-key test for `sent_files`. -/
def sentKeyMatch (sess : String) (md5 : List Nat) (size ty : Int) (x : SentFileRow) : Bool :=
  x.session_name == sess && x.md5_digest == md5 && x.file_size == size && x.type == ty

/-- `s.merge(SentFile(...))`. -/
def mergeSentFile (tbl : List SentFileRow) (r : SentFileRow) : List SentFileRow :=
  upsert (sentKeyMatch r.session_name r.md5_digest r.file_size r.type) tbl r

/-! ### Entity cache: `process_entities` and its duplicate-resolution pass -/

/-- One element of the row batch that `_entities_to_rows(tlo)` hands to
`process_entities`: `(id, hash, username, phone, name)`. -/
structure EntityInput where
  id : Int
  hash : Int
  username : Option String
  phone : Option String
  name : Option String
deriving DecidableEq, Repr

/-- `ORDER BY Entity.date ASC NULLS FIRST`: strict comparison on optional dates,
`NULL` sorting before every value. -/
def dateLT : Option Int → Option Int → Bool
  | none, none => false
  | none, some _ => true
  | some _, none => false
  | some a, some b => decide (a < b)

/-- Insert into a date-ascending list, placing the new element after existing
elements of equal date (one fixed deterministic order for SQL's unspecified ties). -/
def insertByDate (p : Int × Option Int) : List (Int × Option Int) → List (Int × Option Int)
  | [] => [p]
  | q :: qs => if dateLT p.2 q.2 then p :: q :: qs else q :: insertByDate p qs

/-- Sort `(id, date)` pairs by date ascending, nulls first. -/
def sortByDate (l : List (Int × Option Int)) : List (Int × Option Int) :=
  l.foldl (fun acc p => insertByDate p acc) []

/-- `WHERE Entity.session_name == sess AND Entity.username == u`
(a SQL equality never matches a `NULL` username). -/
def usernameMatch (sess u : String) (x : EntityRow) : Bool :=
  x.session_name == sess && x.username == some u

/-- The duplicate query of `process_entities`:
`select(Entity.id, Entity.date).where(session).where(username).order_by(date asc nullsfirst)`. -/
def dupRows (tbl : List EntityRow) (sess u : String) : List (Int × Option Int) :=
  sortByDate ((tbl.filter (usernameMatch sess u)).map (fun x => (x.id, x.date)))

/-- The duplicate-username resolution pass: if more than one row of the session
carries `u`, null the username of every row except the last (most recent) of
the date-ordered duplicates. -/
def evictDups (tbl : List EntityRow) (sess u : String) : List EntityRow :=
  let dups := dupRows tbl sess u
  if 1 < dups.length then
    let ids_to_null := dups.dropLast.map Prod.fst
    if ids_to_null.isEmpty then tbl
    else
      tbl.map (fun x =>
        if x.session_name == sess && ids_to_null.contains x.id then
          { x with username := none }
        else x)
  else tbl

/-- The `Entity` row written for one batch element: all fields verbatim,
date set to the call's current timestamp. -/
def entityRowOf (sess : String) (now : Int) (e : EntityInput) : EntityRow :=
  ⟨sess, e.id, e.hash, e.username, e.phone, e.name, some now⟩

/-- One iteration of the `process_entities` loop: merge the row, then — when the
username is truthy (present and nonempty) — run the duplicate-resolution pass
for that username. -/
def processEntry (sess : String) (now : Int) (tbl : List EntityRow) (e : EntityInput) :
    List EntityRow :=
  let tbl1 := mergeEntity tbl (entityRowOf sess now e)
  match e.username with
  | some u => if u ≠ "" then evictDups tbl1 sess u else tbl1
  | none => tbl1

/-- `SQLAlchemySession.process_entities` with `save_entities = True` (the
default), acting on the already-converted row batch: early return on an empty
batch, else one merge-and-resolve iteration per row, committed together. -/
def process_entities (tbl : List EntityRow) (sess : String) (now : Int)
    (rows : List EntityInput) : List EntityRow :=
  if rows.isEmpty then tbl
  else rows.foldl (processEntry sess now) tbl

/-! ### Entity lookups -/

/-- `get_entity_rows_by_phone`. -/
def get_entity_rows_by_phone (tbl : List EntityRow) (sess : String) (phone : String) :
    Option (Int × Int) :=
  ((tbl.filter (fun x => x.session_name == sess && x.phone == some phone)).head?).map
    (fun x => (x.id, x.hash))

/-- `get_entity_rows_by_name`. -/
def get_entity_rows_by_name (tbl : List EntityRow) (sess : String) (name : String) :
    Option (Int × Int) :=
  ((tbl.filter (fun x => x.session_name == sess && x.name == some name)).head?).map
    (fun x => (x.id, x.hash))

/-- `get_entity_rows_by_id` with `exact=True`. -/
def get_entity_rows_by_id (tbl : List EntityRow) (sess : String) (i : Int) :
    Option (Int × Int) :=
  ((tbl.filter (fun x => x.session_name == sess && x.id == i)).head?).map
    (fun x => (x.id, x.hash))

/-! ### Delivery cursor store (`update_state`) -/

/-- The four cursor fields carried by a `tl_types.updates.State` as this layer
sees them: `pts`, `qts`, `date` (an optional UTC timestamp in whole seconds —
`fromtimestamp`/`timestamp` round-trip at this granularity is the identity),
`seq`.  `unread_count` is always reconstructed as `0` and not stored. -/
structure CursorState where
  pts : Int
  qts : Int
  date : Option Int
  seq : Int
deriving DecidableEq, Repr

/-- `set_update_state`: merge by `(session_name, entity_id)`.  The stored date
is `int(state.date.timestamp()) if state.date else None`; a `datetime` is
always truthy, so an absent date stores `NULL` and a present date stores its
epoch seconds verbatim. -/
def set_update_state (st : Store) (sess : String) (entity_id : Int) (c : CursorState) : Store :=
  { st with update_state :=
      mergeUpdateState st.update_state ⟨sess, entity_id, c.pts, c.qts, c.date, c.seq⟩ }

/-- `get_update_state`: primary-key get; the returned date is rebuilt from the
stored epoch seconds only when `row.date` is truthy — a stored `NULL` *or a
stored `0`* comes back as no date. -/
def get_update_state (st : Store) (sess : String) (entity_id : Int) : Option CursorState :=
  match st.update_state.find? (updKeyMatch sess entity_id) with
  | some row =>
      some ⟨row.pts, row.qts,
        (match row.date with
         | some d => if d ≠ 0 then some d else none
         | none => none), row.seq⟩
  | none => none

/-! ### File cache -/

/-- The remote-reference value passed to `cache_file`: only `InputDocument`
and `InputPhoto` instances are recognized; `other` stands for any value of a
different type. -/
inductive FileRef where
  | document (id : Int) (access_hash : Int)
  | photo (id : Int) (access_hash : Int)
  | other
deriving DecidableEq, Repr

/-- `_SentFileType.DOCUMENT.value`. -/
def documentType : Int := 0

/-- `_SentFileType.PHOTO.value`. -/
def photoType : Int := 1

/-- `cache_file`: the `isinstance` check precedes the database block, so an
unrecognized instance raises `TypeError` (the returned message) with the store
untouched; a recognized instance is merged by
`(session_name, md5_digest, file_size, type)`. -/
def cache_file (st : Store) (sess : String) (md5 : List Nat) (size : Int) (inst : FileRef) :
    Store × Option String :=
  match inst with
  | .document i h =>
      ({ st with sent_files := mergeSentFile st.sent_files ⟨sess, md5, size, documentType, i, h⟩ },
       none)
  | .photo i h =>
      ({ st with sent_files := mergeSentFile st.sent_files ⟨sess, md5, size, photoType, i, h⟩ },
       none)
  | .other => (st, some "Cannot cache instance")

/-- `get_file`: filter by the full key and take `.first()`. -/
def get_file (st : Store) (sess : String) (md5 : List Nat) (size ty : Int) :
    Option (Int × Int) :=
  ((st.sent_files.filter (sentKeyMatch sess md5 size ty)).head?).map (fun x => (x.id, x.hash))

/-! ### Session record store, delete, list_sessions -/

/-- The in-memory fields the `MemorySession` base object carries for the
current session: `_dc_id`, `_server_address`, `_port`, `_auth_key` (modelled
as its raw bytes; `none` is "no key"), `_takeout_id`. -/
structure MemState where
  dc_id : Int
  server_address : Option String
  port : Option Int
  auth_key : Option (List Nat)
  takeout_id : Option Int
deriving DecidableEq, Repr

/-- `MemorySession.__init__` defaults. -/
def initialMem : MemState := ⟨0, none, none, none, none⟩

/-- `_update_session_row`'s row: `auth_key` is the key bytes or `b""`. -/
def sessionRowOf (name : String) (m : MemState) : SessionRow :=
  ⟨name, some m.dc_id, m.server_address, m.port, m.auth_key.getD [], m.takeout_id⟩

/-- `_load_existing_session` (run by `SQLAlchemySession.__init__` after the
schema bootstrap): load the session row into memory if present (`dc_id or 0`;
an empty `auth_key` blob is "no key"), else merge and commit the initial
default row. -/
def load_existing_session (st : Store) (name : String) : MemState × Store :=
  match st.sessions.find? (sessKeyMatch name) with
  | some row =>
      ({ dc_id := row.dc_id.getD 0,
         server_address := row.server_address,
         port := row.port,
         auth_key := if row.auth_key.isEmpty then none else some row.auth_key,
         takeout_id := row.takeout_id }, st)
  | none =>
      (initialMem, { st with sessions := mergeSessionRow st.sessions (sessionRowOf name initialMem) })

/-- `set_dc`: update the in-memory endpoint (`dc_id or 0` is the identity on
integers), persist the session row, then re-read the row's `auth_key` blob
(empty blob means no key). -/
def set_dc (m : MemState) (st : Store) (name : String) (dc : Int) (addr : Option String)
    (port : Option Int) : MemState × Store :=
  let m1 := { m with dc_id := dc, server_address := addr, port := port }
  let st1 := { st with sessions := mergeSessionRow st.sessions (sessionRowOf name m1) }
  let m2 :=
    match st1.sessions.find? (sessKeyMatch name) with
    | some row =>
        if row.auth_key.isEmpty then { m1 with auth_key := none }
        else { m1 with auth_key := some row.auth_key }
    | none => { m1 with auth_key := none }
  (m2, st1)

/-- The `auth_key` property setter: update memory and persist the row. -/
def set_auth_key (m : MemState) (st : Store) (name : String) (value : Option (List Nat)) :
    MemState × Store :=
  let m1 := { m with auth_key := value }
  (m1, { st with sessions := mergeSessionRow st.sessions (sessionRowOf name m1) })

/-- The `takeout_id` property setter: update memory and persist the row. -/
def set_takeout_id (m : MemState) (st : Store) (name : String) (value : Option Int) :
    MemState × Store :=
  let m1 := { m with takeout_id := value }
  (m1, { st with sessions := mergeSessionRow st.sessions (sessionRowOf name m1) })

/-- `delete`: remove the session's rows from all four tables, in one commit. -/
def deleteSession (st : Store) (sess : String) : Store :=
  { sessions := st.sessions.filter (fun x => !(x.session_name == sess)),
    entities := st.entities.filter (fun x => !(x.session_name == sess)),
    update_state := st.update_state.filter (fun x => !(x.session_name == sess)),
    sent_files := st.sent_files.filter (fun x => !(x.session_name == sess)) }

/-- `list_sessions`: `list(sorted(set(names)))` over the `sessions` table —
deduplicate, then sort ascending. -/
def list_sessions (st : Store) : List String :=
  List.insertionSort (· ≤ ·) ((st.sessions.map (fun r => r.session_name)).dedup)

/-! ### Migration (`migrate.py`, `migrate_sqlite_to_sqlalchemy`)

The legacy SQLite source is modelled table-by-table; `none` for a table means
the table is absent from the source file, so that `cur.execute("select ... ")`
on it raises `sqlite3.OperationalError`. -/

/-- One legacy `sessions` row. -/
structure LegacySessionRow where
  dc_id : Int
  server_address : Option String
  port : Option Int
  auth_key : List Nat
  takeout_id : Option Int
deriving DecidableEq, Repr

/-- One legacy `entities` row. -/
structure LegacyEntityRow where
  id : Int
  hash : Int
  username : Option String
  phone : Option String
  name : Option String
  date : Option Int
deriving DecidableEq, Repr

/-- One legacy `update_state` row (the legacy date is a required numeric
timestamp: `datetime.fromtimestamp(date)` would fail on `NULL`). -/
structure LegacyUpdateRow where
  id : Int
  pts : Int
  qts : Int
  date : Int
  seq : Int
deriving DecidableEq, Repr

/-- One legacy `sent_files` row. -/
structure LegacySentFileRow where
  md5_digest : List Nat
  file_size : Int
  type : Int
  id : Int
  hash : Int
deriving DecidableEq, Repr

/-- A legacy source database; `none` marks an absent table. -/
structure LegacyDB where
  sessions : Option (List LegacySessionRow)
  entities : Option (List LegacyEntityRow)
  update_state : Option (List LegacyUpdateRow)
  sent_files : Option (List LegacySentFileRow)
deriving DecidableEq, Repr

/-- The uncaught `sqlite3.OperationalError` raised when the `sessions` table is
missing from the legacy source. -/
inductive MigError where
  | operationalError
deriving DecidableEq, Repr

/-- Python's `str.lower()`: lowercase character by character.  (Defined
structurally over the character list so that it evaluates by kernel
reduction.) -/
def pyLower (s : String) : String :=
  String.mk (s.data.map Char.toLower)

/-- `username.lower() if username else None`: an absent or empty username
migrates as `NULL`, otherwise lowercased. -/
def legacyUsername : Option String → Option String
  | some s => if s.isEmpty then none else some (pyLower s)
  | none => none

/-- One iteration of the migration's entity loop: merge the row (date
`date or now_ts` — `NULL` *or `0`* becomes the current time; username
lowercased), then for a truthy original username run the duplicate-resolution
pass keyed on the lowercase username. -/
def migrateEntityStep (sess : String) (now : Int) (tbl : List EntityRow) (r : LegacyEntityRow) :
    List EntityRow :=
  let date : Int :=
    match r.date with
    | some d => if d ≠ 0 then d else now
    | none => now
  let tbl1 := mergeEntity tbl ⟨sess, r.id, r.hash, legacyUsername r.username, r.phone, r.name, some date⟩
  match r.username with
  | some u => if ¬u.isEmpty then evictDups tbl1 sess (pyLower u) else tbl1
  | none => tbl1

/-- The migration's entity replay, one transaction over all legacy rows. -/
def migrateEntities (tbl : List EntityRow) (sess : String) (now : Int)
    (rows : List LegacyEntityRow) : List EntityRow :=
  rows.foldl (migrateEntityStep sess now) tbl

/-- Step 4: replay the single legacy session row, if present: `set_dc`, then
the `auth_key` setter when the legacy blob is truthy (nonempty), then the
`takeout_id` setter. -/
def replaySessionRow (name : String) (mem : MemState) (st : Store)
    (srows : List LegacySessionRow) : Store :=
  match srows.head? with
  | some r =>
      let p1 := set_dc mem st name r.dc_id r.server_address r.port
      let p2 :=
        if r.auth_key.isEmpty then p1
        else set_auth_key p1.1 p1.2 name (some r.auth_key)
      (set_takeout_id p2.1 p2.2 name r.takeout_id).2
  | none => st

/-- Step 5: replay entities (the `if rows:` guard skips the whole block for an
empty read). -/
def replayEntities (name : String) (now : Int) (st : Store)
    (erows : List LegacyEntityRow) : Store :=
  { st with entities :=
      if erows.isEmpty then st.entities else migrateEntities st.entities name now erows }

/-- Step 6: replay cursors; the legacy numeric date round-trips verbatim and a
`datetime` is always truthy, so `some r.date` is stored. -/
def replayCursors (name : String) (st : Store) (urows : List LegacyUpdateRow) : Store :=
  urows.foldl (fun acc r => set_update_state acc name r.id ⟨r.pts, r.qts, some r.date, r.seq⟩) st

/-- Step 7: replay recognized file-cache rows, silently skipping other kinds
(`cache_file` cannot raise on the two recognized constructors, so its store
component is taken directly). -/
def replayFiles (name : String) (st : Store) (frows : List LegacySentFileRow) : Store :=
  frows.foldl
    (fun acc r =>
      if r.type == documentType then
        (cache_file acc name r.md5_digest r.file_size (.document r.id r.hash)).1
      else if r.type == photoType then
        (cache_file acc name r.md5_digest r.file_size (.photo r.id r.hash)).1
      else acc) st

/-- The replay steps 4–7 of `migrate_sqlite_to_sqlalchemy` after the
destination session has been initialized and the legacy `sessions` table has
been read successfully. -/
def migrateBody (name : String) (now : Int) (mem : MemState) (st : Store)
    (srows : List LegacySessionRow) (erows : List LegacyEntityRow)
    (urows : List LegacyUpdateRow) (frows : List LegacySentFileRow) : Store :=
  replayFiles name
    (replayCursors name (replayEntities name now (replaySessionRow name mem st srows) erows) urows)
    frows

/-- `migrate_sqlite_to_sqlalchemy` from the point where the source file has
been opened and the session name derived: initialize the destination session
(schema bootstrap plus initial session row, committed), then read the legacy
`sessions` table — this read is *not* wrapped in a `try/except`, so a missing
`sessions` table aborts with `OperationalError` — then run the replay steps
(whose own table reads fall back to zero rows when a table is missing). -/
def migrateModel (name : String) (now : Int) (st0 : Store) (db : LegacyDB) :
    Store × Option MigError :=
  match db.sessions with
  | none => ((load_existing_session st0 name).2, some .operationalError)
  | some srows =>
      (migrateBody name now (load_existing_session st0 name).1 (load_existing_session st0 name).2
        srows (db.entities.getD []) (db.update_state.getD []) (db.sent_files.getD []),
       none)

/-! ### Derived notions used by the statements -/

/-- The primary key of an `entities` row. -/
def entKey (x : EntityRow) : String × Int := (x.session_name, x.id)

/-- A table respects its primary key: no two rows share `(session_name, id)`.
Every table reachable through `merge`-based writes satisfies this. -/
def wellKeyed (tbl : List EntityRow) : Prop :=
  (tbl.map entKey).Nodup

/-- How many rows of session `sess` carry the (non-null) username `u`. -/
def usernameCount (tbl : List EntityRow) (sess u : String) : Nat :=
  (tbl.filter (usernameMatch sess u)).length

/-- A sequence of Entity Cache batch upserts, each with its session name and
write timestamp, replayed from the initial empty table. -/
def applyBatches (batches : List (String × Int × List EntityInput)) : List EntityRow :=
  batches.foldl (fun tbl b => process_entities tbl b.1 b.2.1 b.2.2) []

/-! ## Generic lemmas about the `upsert` combinator -/

theorem find?_eq_head?_filter {α : Type} (p : α → Bool) (l : List α) :
    l.find? p = (l.filter p).head? := by
  induction l with
  | nil => rfl
  | cons x xs ih =>
    rw [List.find?_cons, List.filter_cons]
    cases h : p x
    · rw [ih]; rfl
    · rfl

theorem mem_upsert_self {α : Type} (km : α → Bool) (tbl : List α) (r : α) :
    r ∈ upsert km tbl r := by
  unfold upsert
  by_cases h : tbl.any km = true
  · rw [if_pos h]
    obtain ⟨x, hx, hkx⟩ := List.any_eq_true.mp h
    exact List.mem_map.mpr ⟨x, hx, by simp [hkx]⟩
  · rw [if_neg h]
    simp

theorem mem_upsert {α : Type} (km : α → Bool) (tbl : List α) (r y : α)
    (hy : y ∈ upsert km tbl r) : y = r ∨ y ∈ tbl := by
  unfold upsert at hy
  by_cases h : tbl.any km = true
  · rw [if_pos h] at hy
    obtain ⟨x, hx, hfx⟩ := List.mem_map.mp hy
    by_cases hkx : km x = true
    · left; rw [if_pos hkx] at hfx; exact hfx.symm
    · right; rw [if_neg hkx] at hfx; exact hfx ▸ hx
  · rw [if_neg h] at hy
    rcases List.mem_append.mp hy with h1 | h1
    · right; exact h1
    · left; simpa using h1

theorem upsert_countP_le {α : Type} (km : α → Bool) (p : α → Bool) (tbl : List α) (r : α)
    (hp : p r = false) : (upsert km tbl r).countP p ≤ tbl.countP p := by
  unfold upsert
  by_cases h : tbl.any km = true
  · rw [if_pos h, List.countP_map]
    apply List.countP_mono_left
    intro x _ hpx
    by_cases hkx : km x = true
    · exfalso
      simp only [Function.comp, hkx, if_true] at hpx
      rw [hp] at hpx
      exact Bool.false_ne_true hpx
    · simpa [Function.comp, hkx] using hpx
  · rw [if_neg h, List.countP_append]
    simp [List.countP_cons, hp]

theorem filter_map_replace_head? {α : Type} (km : α → Bool) (r : α) (hr : km r = true) :
    ∀ tbl : List α, tbl.any km = true →
      ((tbl.map (fun x => if km x then r else x)).filter km).head? = some r := by
  intro tbl
  induction tbl with
  | nil => intro h; exact absurd h (by simp)
  | cons x xs ih =>
    intro h
    by_cases hkx : km x = true
    · simp [List.filter_cons, hkx, hr]
    · have hxs : xs.any km = true := by
        rcases List.any_eq_true.mp h with ⟨y, hy, hky⟩
        rcases List.mem_cons.mp hy with rfl | hy'
        · exact absurd hky (by simp [hkx])
        · exact List.any_eq_true.mpr ⟨y, hy', hky⟩
      simpa [List.filter_cons, hkx] using ih hxs

theorem filter_upsert_head? {α : Type} (km : α → Bool) (tbl : List α) (r : α)
    (hr : km r = true) : ((upsert km tbl r).filter km).head? = some r := by
  unfold upsert
  by_cases h : tbl.any km = true
  · rw [if_pos h]
    exact filter_map_replace_head? km r hr tbl h
  · rw [if_neg h, List.filter_append]
    have h0 : tbl.filter km = [] := by
      rw [List.filter_eq_nil_iff]
      intro a ha hka
      exact h (List.any_eq_true.mpr ⟨a, ha, hka⟩)
    simp [h0, List.filter_cons, hr]

theorem find?_upsert {α : Type} (km : α → Bool) (tbl : List α) (r : α)
    (hr : km r = true) : (upsert km tbl r).find? km = some r := by
  rw [find?_eq_head?_filter]
  exact filter_upsert_head? km tbl r hr

/-! ## Shape lemmas for the duplicate-resolution pass -/

theorem evictDups_def (tbl : List EntityRow) (sess u : String) :
    evictDups tbl sess u =
      (if 1 < (dupRows tbl sess u).length then
        (if ((dupRows tbl sess u).dropLast.map Prod.fst).isEmpty then tbl
         else tbl.map (fun x =>
            if x.session_name == sess &&
                ((dupRows tbl sess u).dropLast.map Prod.fst).contains x.id then
              { x with username := none }
            else x))
       else tbl) := rfl

/-- The duplicate-resolution pass is a pointwise map that either keeps a row or
clears exactly its username. -/
theorem evictDups_exists_g (tbl : List EntityRow) (sess u : String) :
    ∃ g : EntityRow → EntityRow,
      (∀ x, g x = x ∨ g x = { x with username := none }) ∧
      evictDups tbl sess u = tbl.map g := by
  rw [evictDups_def]
  by_cases h1 : 1 < (dupRows tbl sess u).length
  · rw [if_pos h1]
    by_cases h2 : ((dupRows tbl sess u).dropLast.map Prod.fst).isEmpty
    · rw [if_pos h2]
      exact ⟨id, fun x => Or.inl rfl, (List.map_id tbl).symm⟩
    · rw [if_neg h2]
      refine ⟨_, ?_, rfl⟩
      intro x
      by_cases hc : (x.session_name == sess &&
          ((dupRows tbl sess u).dropLast.map Prod.fst).contains x.id) = true
      · right; rw [if_pos hc]
      · left; rw [if_neg hc]
  · rw [if_neg h1]
    exact ⟨id, fun x => Or.inl rfl, (List.map_id tbl).symm⟩

theorem filter_head_proj_map {α β : Type} (g : α → α) (q : α → Bool) (proj : α → β)
    (hq : ∀ x, q (g x) = q x) (hp : ∀ x, q x = true → proj (g x) = proj x) :
    ∀ l : List α, ((l.map g).filter q).head?.map proj = (l.filter q).head?.map proj := by
  intro l
  induction l with
  | nil => rfl
  | cons x xs ih =>
    rw [List.map_cons, List.filter_cons, List.filter_cons, hq x]
    cases hqx : q x
    · exact ih
    · simp [List.head?_cons, hp x hqx]

/-! ## C2: username normalization in the live write path -/

/--
Counterexample to C2: `process_entities` stores the batch's username field
verbatim.  Writing the single entry `(1, 2, "Foo", -, -)` into an empty table
for session `"s"` stores the username exactly as `"Foo"`, which is not
lowercase-normalized (`pyLower "Foo" = "foo" ≠ "Foo"`).
-/
theorem process_entities_not_lowercased :
    (process_entities [] "s" 100 [⟨1, 2, some "Foo", none, none⟩]).map
        (fun x => x.username) = [some "Foo"]
    ∧ pyLower "Foo" ≠ "Foo" := by
  constructor
  · rfl
  · decide

/--
C2 (amended): in the live write path, `process_entities` writes each entry's
username verbatim — no lowercase normalization happens in this path (the
migration path, by contrast, lowercases explicitly).  For any single-entry
batch written into an empty table, the stored row carries exactly the input
username along with the other fields and the call's timestamp.
-/
theorem process_entities_stores_username_verbatim (sess : String) (now : Int) (e : EntityInput) :
    process_entities [] sess now [e] =
      [⟨sess, e.id, e.hash, e.username, e.phone, e.name, some now⟩] := by
  show processEntry sess now [] e = [entityRowOf sess now e]
  have hmerge : mergeEntity [] (entityRowOf sess now e) = [entityRowOf sess now e] := rfl
  have hevict : ∀ u : String, e.username = some u →
      evictDups [entityRowOf sess now e] sess u = [entityRowOf sess now e] := by
    intro u hu
    unfold evictDups
    have hd : dupRows [entityRowOf sess now e] sess u = [(e.id, some now)] := by
      unfold dupRows
      simp [usernameMatch, entityRowOf, hu, sortByDate, insertByDate, List.filter_cons]
    rw [hd]
    simp
  unfold processEntry
  rw [hmerge]
  cases he : e.username with
  | none => rfl
  | some u =>
    show (if u ≠ "" then evictDups [entityRowOf sess now e] sess u
          else [entityRowOf sess now e]) = [entityRowOf sess now e]
    by_cases hu : u = ""
    · rw [if_neg (by simpa using hu)]
    · rw [if_pos hu]
      exact hevict u he

/-! ## C5: cursor round-trip -/

/--
Counterexample to C5: the cursor fields are not returned verbatim for every
cursor.  Writing a cursor whose timestamp is the Unix epoch (stored date `0`)
and reading it back yields a cursor with *no* timestamp, because
`get_update_state` rebuilds the date only when the stored integer is truthy
(`if row.date:` is false at `0`).
-/
theorem update_state_roundtrip_zero_date :
    get_update_state (set_update_state emptyStore "s" 1 ⟨100, 50, some 0, 7⟩) "s" 1
      = some ⟨100, 50, none, 7⟩
    ∧ some (⟨100, 50, none, 7⟩ : CursorState) ≠ some (⟨100, 50, some 0, 7⟩ : CursorState) := by
  exact ⟨by decide, by decide⟩

/--
C5 (amended): the cursor round-trip is exact for every cursor whose timestamp
is not the stored integer `0`: writing `(pts, qts, date, seq)` with
`set_update_state` and reading it back with `get_update_state` for the same
`(session, source id)` returns exactly the same four values.  (A timestamp
equal to the Unix epoch — stored `0` — is read back as "no timestamp".)
-/
theorem update_state_roundtrip (st : Store) (sess : String) (eid : Int) (c : CursorState)
    (hd : c.date ≠ some 0) :
    get_update_state (set_update_state st sess eid c) sess eid = some c := by
  obtain ⟨pts, qts, date, seq⟩ := c
  have hfind : (mergeUpdateState st.update_state ⟨sess, eid, pts, qts, date, seq⟩).find?
      (updKeyMatch sess eid) = some ⟨sess, eid, pts, qts, date, seq⟩ :=
    find?_upsert (updKeyMatch sess eid) st.update_state ⟨sess, eid, pts, qts, date, seq⟩
      (by simp [updKeyMatch])
  show (match (mergeUpdateState st.update_state ⟨sess, eid, pts, qts, date, seq⟩).find?
      (updKeyMatch sess eid) with
    | some row =>
        some (⟨row.pts, row.qts,
          (match row.date with
           | some d => if d ≠ 0 then some d else none
           | none => none), row.seq⟩ : CursorState)
    | none => none) = some ⟨pts, qts, date, seq⟩
  rw [hfind]
  cases hdate : date with
  | none => rfl
  | some d =>
    have hd0 : d ≠ 0 := by
      intro h0
      exact hd (by rw [hdate, h0])
    simp [hd0]

/--
Witness for C5 at the spec's example cursor (position 100, secondary 50,
timestamp present, sequence 7): the hypothesis (timestamp is not the stored
zero) holds, and the round-trip returns the identical four values.
-/
theorem update_state_roundtrip_witness :
    ((⟨100, 50, some 1000, 7⟩ : CursorState).date ≠ some 0)
    ∧ get_update_state (set_update_state emptyStore "s" 3 ⟨100, 50, some 1000, 7⟩) "s" 3
        = some ⟨100, 50, some 1000, 7⟩ :=
  ⟨by decide, update_state_roundtrip emptyStore "s" 3 ⟨100, 50, some 1000, 7⟩ (by decide)⟩

/-! ## C9: file-cache put rejects unrecognized references -/

/--
C9: `cache_file` rejects a remote-reference value that is neither a document
nor a photo reference, raising before any write (the store is returned
unchanged with the error); for the two recognized kinds it performs the
upsert, after which `get_file` for the same `(session, digest, size, kind)`
returns the cached `(remote id, remote hash)`.
-/
theorem cache_file_rejects_unrecognized (st : Store) (sess : String) (md5 : List Nat)
    (size i h : Int) :
    cache_file st sess md5 size FileRef.other = (st, some "Cannot cache instance")
    ∧ (cache_file st sess md5 size (FileRef.document i h)).2 = none
    ∧ (cache_file st sess md5 size (FileRef.photo i h)).2 = none
    ∧ get_file (cache_file st sess md5 size (FileRef.document i h)).1 sess md5 size documentType
        = some (i, h)
    ∧ get_file (cache_file st sess md5 size (FileRef.photo i h)).1 sess md5 size photoType
        = some (i, h) := by
  refine ⟨rfl, rfl, rfl, ?_, ?_⟩
  · show ((upsert (sentKeyMatch sess md5 size documentType) st.sent_files
        ⟨sess, md5, size, documentType, i, h⟩).filter
          (sentKeyMatch sess md5 size documentType)).head?.map (fun x => (x.id, x.hash))
      = some (i, h)
    rw [filter_upsert_head? (sentKeyMatch sess md5 size documentType) st.sent_files
      ⟨sess, md5, size, documentType, i, h⟩ (by simp [sentKeyMatch])]
    rfl
  · show ((upsert (sentKeyMatch sess md5 size photoType) st.sent_files
        ⟨sess, md5, size, photoType, i, h⟩).filter
          (sentKeyMatch sess md5 size photoType)).head?.map (fun x => (x.id, x.hash))
      = some (i, h)
    rw [filter_upsert_head? (sentKeyMatch sess md5 size photoType) st.sent_files
      ⟨sess, md5, size, photoType, i, h⟩ (by simp [sentKeyMatch])]
    rfl

theorem list_sessions_mem (st : Store) (n : String) :
    n ∈ list_sessions st ↔ ∃ r ∈ st.sessions, r.session_name = n := by
  unfold list_sessions
  rw [List.mem_insertionSort, List.mem_dedup, List.mem_map]

/-! ## C6: the duplicate-resolution pass only clears usernames -/

/--
C6: the duplicate-resolution pass only clears the username field of losing
rows.  It preserves the row count (no row is deleted); every original row is
still present either unchanged or with only its username set to null (peer
id, hash, phone, display name and timestamp untouched); and the phone, name,
and exact-id lookups of every session return exactly what they returned
before the pass.
-/
theorem dup_resolution_frame (tbl : List EntityRow) (sess u : String) :
    (evictDups tbl sess u).length = tbl.length
    ∧ (∀ x ∈ tbl, x ∈ evictDups tbl sess u ∨
        { x with username := none } ∈ evictDups tbl sess u)
    ∧ (∀ s p, get_entity_rows_by_phone (evictDups tbl sess u) s p =
        get_entity_rows_by_phone tbl s p)
    ∧ (∀ s n, get_entity_rows_by_name (evictDups tbl sess u) s n =
        get_entity_rows_by_name tbl s n)
    ∧ (∀ s i, get_entity_rows_by_id (evictDups tbl sess u) s i =
        get_entity_rows_by_id tbl s i) := by
  obtain ⟨g, hg, hmap⟩ := evictDups_exists_g tbl sess u
  rw [hmap]
  refine ⟨List.length_map tbl g, ?_, ?_, ?_, ?_⟩
  · intro x hx
    rcases hg x with h | h
    · left; rw [← h]; exact List.mem_map_of_mem g hx
    · right; rw [← h]; exact List.mem_map_of_mem g hx
  · intro s p
    unfold get_entity_rows_by_phone
    apply filter_head_proj_map
    · intro x; rcases hg x with h | h <;> rw [h]
    · intro x _; rcases hg x with h | h <;> rw [h]
  · intro s n
    unfold get_entity_rows_by_name
    apply filter_head_proj_map
    · intro x; rcases hg x with h | h <;> rw [h]
    · intro x _; rcases hg x with h | h <;> rw [h]
  · intro s i
    unfold get_entity_rows_by_id
    apply filter_head_proj_map
    · intro x; rcases hg x with h | h <;> rw [h]
    · intro x _; rcases hg x with h | h <;> rw [h]

/--
Witness for C6 at a concrete duplicate-username table: two rows of session
`"s"` share username `"u"`; after the pass the table keeps both rows, the
older row is present with only its username cleared, and phone / name /
exact-id lookups are unchanged.
-/
theorem dup_resolution_frame_witness :
    (evictDups
        [⟨"s", 1, 10, some "u", some "p1", some "n1", some 1⟩,
         ⟨"s", 2, 20, some "u", some "p2", some "n2", some 2⟩] "s" "u").length =
      ([⟨"s", 1, 10, some "u", some "p1", some "n1", some 1⟩,
        ⟨"s", 2, 20, some "u", some "p2", some "n2", some 2⟩] : List EntityRow).length
    ∧ ((⟨"s", 1, 10, some "u", some "p1", some "n1", some 1⟩ : EntityRow) ∈
        ([⟨"s", 1, 10, some "u", some "p1", some "n1", some 1⟩,
          ⟨"s", 2, 20, some "u", some "p2", some "n2", some 2⟩] : List EntityRow))
    ∧ ((⟨"s", 1, 10, some "u", some "p1", some "n1", some 1⟩ : EntityRow) ∈
        evictDups
          [⟨"s", 1, 10, some "u", some "p1", some "n1", some 1⟩,
           ⟨"s", 2, 20, some "u", some "p2", some "n2", some 2⟩] "s" "u" ∨
       (⟨"s", 1, 10, none, some "p1", some "n1", some 1⟩ : EntityRow) ∈
        evictDups
          [⟨"s", 1, 10, some "u", some "p1", some "n1", some 1⟩,
           ⟨"s", 2, 20, some "u", some "p2", some "n2", some 2⟩] "s" "u")
    ∧ get_entity_rows_by_phone
        (evictDups
          [⟨"s", 1, 10, some "u", some "p1", some "n1", some 1⟩,
           ⟨"s", 2, 20, some "u", some "p2", some "n2", some 2⟩] "s" "u") "s" "p1" =
      get_entity_rows_by_phone
        [⟨"s", 1, 10, some "u", some "p1", some "n1", some 1⟩,
         ⟨"s", 2, 20, some "u", some "p2", some "n2", some 2⟩] "s" "p1"
    ∧ get_entity_rows_by_id
        (evictDups
          [⟨"s", 1, 10, some "u", some "p1", some "n1", some 1⟩,
           ⟨"s", 2, 20, some "u", some "p2", some "n2", some 2⟩] "s" "u") "s" 1 =
      get_entity_rows_by_id
        [⟨"s", 1, 10, some "u", some "p1", some "n1", some 1⟩,
         ⟨"s", 2, 20, some "u", some "p2", some "n2", some 2⟩] "s" 1 := by
  have T := dup_resolution_frame
    [⟨"s", 1, 10, some "u", some "p1", some "n1", some 1⟩,
     ⟨"s", 2, 20, some "u", some "p2", some "n2", some 2⟩] "s" "u"
  exact ⟨T.1, by decide,
    T.2.1 ⟨"s", 1, 10, some "u", some "p1", some "n1", some 1⟩ (by decide),
    T.2.2.1 "s" "p1", T.2.2.2.2 "s" 1⟩

/-! ## C7: deleting a session -/

/--
C7: `delete` removes every row of the session from all four per-session
tables, `list_sessions` no longer includes the session name afterwards, and
every row belonging to any other session name is left unchanged (membership
in each table is exactly "was there before and belongs to another session";
other names keep their `list_sessions` status).
-/
theorem delete_session_spec (st : Store) (sess : String) :
    (∀ x : SessionRow, x ∈ (deleteSession st sess).sessions ↔
        x ∈ st.sessions ∧ x.session_name ≠ sess)
    ∧ (∀ x : EntityRow, x ∈ (deleteSession st sess).entities ↔
        x ∈ st.entities ∧ x.session_name ≠ sess)
    ∧ (∀ x : UpdateStateRow, x ∈ (deleteSession st sess).update_state ↔
        x ∈ st.update_state ∧ x.session_name ≠ sess)
    ∧ (∀ x : SentFileRow, x ∈ (deleteSession st sess).sent_files ↔
        x ∈ st.sent_files ∧ x.session_name ≠ sess)
    ∧ sess ∉ list_sessions (deleteSession st sess)
    ∧ (∀ n : String, n ≠ sess →
        (n ∈ list_sessions (deleteSession st sess) ↔ n ∈ list_sessions st)) := by
  refine ⟨?_, ?_, ?_, ?_, ?_, ?_⟩
  · intro x
    simp [deleteSession, List.mem_filter]
  · intro x
    simp [deleteSession, List.mem_filter]
  · intro x
    simp [deleteSession, List.mem_filter]
  · intro x
    simp [deleteSession, List.mem_filter]
  · rw [list_sessions_mem]
    rintro ⟨r, hr, hname⟩
    have : r.session_name ≠ sess := by
      have := (List.mem_filter.mp hr).2
      simpa using this
    exact this hname
  · intro n hn
    rw [list_sessions_mem, list_sessions_mem]
    constructor
    · rintro ⟨r, hr, hname⟩
      exact ⟨r, (List.mem_filter.mp hr).1, hname⟩
    · rintro ⟨r, hr, hname⟩
      refine ⟨r, List.mem_filter.mpr ⟨hr, ?_⟩, hname⟩
      simpa using hname ▸ hn

/--
Witness for C7: a store with sessions `"a"` and `"b"`; deleting `"a"` leaves
`"b"`'s row present, removes `"a"` from `list_sessions`, and keeps `"b"` in it.
-/
theorem delete_session_spec_witness :
    ((⟨"b", some 1, none, none, [], none⟩ : SessionRow) ∈
        (deleteSession
          ⟨[⟨"a", some 0, none, none, [], none⟩, ⟨"b", some 1, none, none, [], none⟩],
           [], [], []⟩ "a").sessions ↔
      (⟨"b", some 1, none, none, [], none⟩ : SessionRow) ∈
        ([⟨"a", some 0, none, none, [], none⟩, ⟨"b", some 1, none, none, [], none⟩] :
          List SessionRow) ∧ "b" ≠ "a")
    ∧ "a" ∉ list_sessions (deleteSession
        ⟨[⟨"a", some 0, none, none, [], none⟩, ⟨"b", some 1, none, none, [], none⟩],
         [], [], []⟩ "a")
    ∧ ("b" ≠ "a")
    ∧ ("b" ∈ list_sessions (deleteSession
          ⟨[⟨"a", some 0, none, none, [], none⟩, ⟨"b", some 1, none, none, [], none⟩],
           [], [], []⟩ "a") ↔
        "b" ∈ list_sessions
          ⟨[⟨"a", some 0, none, none, [], none⟩, ⟨"b", some 1, none, none, [], none⟩],
           [], [], []⟩) := by
  have T := delete_session_spec
    ⟨[⟨"a", some 0, none, none, [], none⟩, ⟨"b", some 1, none, none, [], none⟩],
     [], [], []⟩ "a"
  exact ⟨T.1 ⟨"b", some 1, none, none, [], none⟩, T.2.2.2.2.1, by decide,
    T.2.2.2.2.2 "b" (by decide)⟩

/-! ## C10: list_sessions is deduplicated and sorted -/

/--
C10: for every store state, `list_sessions` returns the session names
deduplicated and sorted in strictly ascending order (strict sortedness is
exactly "sorted and duplicate-free"), and its members are exactly the names
appearing in the `sessions` table.
-/
theorem list_sessions_sorted_dedup (st : Store) :
    (list_sessions st).Sorted (· < ·)
    ∧ ∀ n : String, n ∈ list_sessions st ↔ ∃ r ∈ st.sessions, r.session_name = n := by
  constructor
  · have h1 : (list_sessions st).Sorted (· ≤ ·) := List.sorted_insertionSort _ _
    have h2 : (list_sessions st).Nodup :=
      (List.perm_insertionSort _ _).nodup_iff.mpr (List.nodup_dedup _)
    exact h1.lt_of_le h2
  · intro n
    exact list_sessions_mem st n

/-! ## C3: tolerance of missing legacy tables -/

/--
Counterexample to C3: the legacy `sessions` read is not wrapped in a
`try/except`, so a legacy source missing only the `sessions` table (the other
three present, empty) makes single-file migration fail with
`sqlite3.OperationalError` instead of being treated as zero rows.
-/
theorem migrate_missing_sessions_fails :
    (migrateModel "alice" 0 emptyStore ⟨none, some [], some [], some []⟩).2
      = some MigError.operationalError := rfl

/--
C3 (amended): migration tolerates the absence of the `entities`,
`update_state` and `sent_files` legacy tables — each absent table contributes
exactly zero rows and the run completes without error — but absence of the
legacy `sessions` table is a fatal error (its read is the only one not
guarded).
-/
theorem migrate_tolerates_missing_replay_tables (name : String) (now : Int) (st : Store)
    (srows : List LegacySessionRow) (ent : Option (List LegacyEntityRow))
    (upd : Option (List LegacyUpdateRow)) (sf : Option (List LegacySentFileRow)) :
    migrateModel name now st ⟨some srows, ent, upd, sf⟩
      = migrateModel name now st
          ⟨some srows, some (ent.getD []), some (upd.getD []), some (sf.getD [])⟩
    ∧ (migrateModel name now st ⟨some srows, ent, upd, sf⟩).2 = none := ⟨rfl, rfl⟩

/-! ## C4: migration is not atomic at the session level -/

theorem any_name_mergeSessionRow (l : List SessionRow) (name : String) (m : MemState) :
    ((mergeSessionRow l (sessionRowOf name m)).any (fun r => r.session_name == name)) = true :=
  List.any_eq_true.mpr ⟨sessionRowOf name m, mem_upsert_self _ l _, by simp [sessionRowOf]⟩

theorem sessions_any_load_existing (st : Store) (name : String) :
    ((load_existing_session st name).2.sessions.any (fun r => r.session_name == name)) = true := by
  unfold load_existing_session
  cases hf : st.sessions.find? (sessKeyMatch name) with
  | some row =>
    have hmem := List.mem_of_find?_eq_some hf
    have hp : sessKeyMatch name row = true := List.find?_some hf
    exact List.any_eq_true.mpr ⟨row, hmem, by simpa [sessKeyMatch] using hp⟩
  | none =>
    exact any_name_mergeSessionRow st.sessions name initialMem

theorem sessions_any_replaySessionRow (name : String) (mem : MemState) (st : Store)
    (srows : List LegacySessionRow)
    (hst : (st.sessions.any (fun r => r.session_name == name)) = true) :
    ((replaySessionRow name mem st srows).sessions.any (fun r => r.session_name == name))
      = true := by
  unfold replaySessionRow
  cases srows.head? with
  | none => exact hst
  | some r =>
    by_cases hk : r.auth_key.isEmpty
    · simp only [hk, if_true]
      exact any_name_mergeSessionRow _ name _
    · simp only [hk, if_false]
      exact any_name_mergeSessionRow _ name _

theorem sessions_replayCursors (name : String) (urows : List LegacyUpdateRow) (st : Store) :
    (replayCursors name st urows).sessions = st.sessions := by
  induction urows generalizing st with
  | nil => rfl
  | cons r rs ih =>
    show (replayCursors name (set_update_state st name r.id ⟨r.pts, r.qts, some r.date, r.seq⟩)
      rs).sessions = st.sessions
    rw [ih]
    rfl

theorem sessions_replayFiles (name : String) (frows : List LegacySentFileRow) (st : Store) :
    (replayFiles name st frows).sessions = st.sessions := by
  induction frows generalizing st with
  | nil => rfl
  | cons r rs ih =>
    show (replayFiles name
      (if r.type == documentType then
        (cache_file st name r.md5_digest r.file_size (.document r.id r.hash)).1
      else if r.type == photoType then
        (cache_file st name r.md5_digest r.file_size (.photo r.id r.hash)).1
      else st) rs).sessions = st.sessions
    rw [ih]
    by_cases h1 : (r.type == documentType) = true
    · rw [if_pos h1]; rfl
    · rw [if_neg h1]
      by_cases h2 : (r.type == photoType) = true
      · rw [if_pos h2]; rfl
      · rw [if_neg h2]

/--
Counterexample to C4: migration is not atomic at the session level.  Migrating
a legacy source whose `sessions` table is missing raises an error, yet the
destination store already contains a committed session record for the derived
name — created by the destination-initialization step before the failing read.
-/
theorem migrate_failure_leaves_session_record :
    (migrateModel "alice" 0 emptyStore ⟨none, none, none, none⟩).2.isSome = true
    ∧ ((migrateModel "alice" 0 emptyStore ⟨none, none, none, none⟩).1.sessions.any
        (fun r => r.session_name == "alice")) = true := ⟨rfl, by decide⟩

/--
C4 (amended): the destination session record is created and committed by the
destination-initialization step, before any replay; consequently a session
record for the derived name is present after *every* migration run — failed
or successful — so its presence is not a signal of success and only a failure
before initialization (a missing source file) leaves the destination without
it.
-/
theorem migrate_session_record_always_present (name : String) (now : Int) (st0 : Store)
    (db : LegacyDB) :
    ((migrateModel name now st0 db).1.sessions.any (fun r => r.session_name == name))
      = true := by
  obtain ⟨dbs, dbe, dbu, dbf⟩ := db
  cases dbs with
  | none =>
    exact sessions_any_load_existing st0 name
  | some srows =>
    show ((migrateBody name now (load_existing_session st0 name).1
        (load_existing_session st0 name).2 srows (dbe.getD []) (dbu.getD [])
        (dbf.getD [])).sessions.any (fun r => r.session_name == name)) = true
    unfold migrateBody
    rw [sessions_replayFiles, sessions_replayCursors]
    show ((replaySessionRow name (load_existing_session st0 name).1
        (load_existing_session st0 name).2 srows).sessions.any
          (fun r => r.session_name == name)) = true
    exact sessions_any_replaySessionRow name _ _ srows (sessions_any_load_existing st0 name)

/-! ## Infrastructure for C1 and C8: sorting, equations, well-keyedness -/

theorem insertByDate_perm (p : Int × Option Int) :
    ∀ l : List (Int × Option Int), insertByDate p l ~ p :: l := by
  intro l
  induction l with
  | nil => exact List.Perm.refl _
  | cons q qs ih =>
    unfold insertByDate
    by_cases h : dateLT p.2 q.2 = true
    · rw [if_pos h]
    · rw [if_neg h]
      exact (ih.cons q).trans (List.Perm.swap p q qs)

theorem sortByDate_foldl_perm :
    ∀ (l acc : List (Int × Option Int)),
      l.foldl (fun acc p => insertByDate p acc) acc ~ l ++ acc := by
  intro l
  induction l with
  | nil => intro acc; exact List.Perm.refl _
  | cons x xs ih =>
    intro acc
    rw [List.foldl_cons]
    calc xs.foldl (fun acc p => insertByDate p acc) (insertByDate x acc)
        ~ xs ++ insertByDate x acc := ih _
      _ ~ xs ++ (x :: acc) := List.Perm.append_left xs (insertByDate_perm x acc)
      _ ~ x :: (xs ++ acc) := List.perm_middle

theorem sortByDate_perm (l : List (Int × Option Int)) : sortByDate l ~ l := by
  unfold sortByDate
  simpa using sortByDate_foldl_perm l []

theorem dupRows_length (tbl : List EntityRow) (sess u : String) :
    (dupRows tbl sess u).length = (tbl.filter (usernameMatch sess u)).length := by
  unfold dupRows
  rw [(sortByDate_perm _).length_eq, List.length_map]

theorem mem_dupRows (tbl : List EntityRow) (sess u : String) (x : EntityRow)
    (hx : x ∈ tbl.filter (usernameMatch sess u)) :
    (x.id, x.date) ∈ dupRows tbl sess u := by
  unfold dupRows
  rw [(sortByDate_perm _).mem_iff]
  exact List.mem_map.mpr ⟨x, hx, rfl⟩

theorem processEntry_eq_none (sess : String) (now : Int) (tbl : List EntityRow)
    (e : EntityInput) (hu : e.username = none) :
    processEntry sess now tbl e = mergeEntity tbl (entityRowOf sess now e) := by
  unfold processEntry
  simp only [hu]

theorem processEntry_eq_empty (sess : String) (now : Int) (tbl : List EntityRow)
    (e : EntityInput) (hu : e.username = some "") :
    processEntry sess now tbl e = mergeEntity tbl (entityRowOf sess now e) := by
  unfold processEntry
  simp only [hu, ne_eq, not_true_eq_false, if_false]

theorem processEntry_eq_some (sess : String) (now : Int) (tbl : List EntityRow)
    (e : EntityInput) (u : String) (hu : e.username = some u) (hu' : u ≠ "") :
    processEntry sess now tbl e =
      evictDups (mergeEntity tbl (entityRowOf sess now e)) sess u := by
  unfold processEntry
  simp only [hu, ne_eq]
  rw [if_pos hu']

theorem entKey_of_keyMatch (r x : EntityRow)
    (h : entityKeyMatch r.session_name r.id x = true) : entKey x = entKey r := by
  unfold entityKeyMatch at h
  rw [Bool.and_eq_true] at h
  unfold entKey
  rw [eq_of_beq h.1, eq_of_beq h.2]

theorem wellKeyed_mergeEntity (tbl : List EntityRow) (r : EntityRow) (hwk : wellKeyed tbl) :
    wellKeyed (mergeEntity tbl r) := by
  unfold wellKeyed mergeEntity upsert
  by_cases h : tbl.any (entityKeyMatch r.session_name r.id) = true
  · rw [if_pos h, List.map_map]
    have heq : tbl.map (entKey ∘ fun x => if entityKeyMatch r.session_name r.id x then r else x)
        = tbl.map entKey := by
      apply List.map_congr_left
      intro x _
      by_cases hk : entityKeyMatch r.session_name r.id x = true
      · show entKey (if entityKeyMatch r.session_name r.id x then r else x) = entKey x
        rw [if_pos hk, entKey_of_keyMatch r x hk]
      · show entKey (if entityKeyMatch r.session_name r.id x then r else x) = entKey x
        rw [if_neg hk]
    rw [heq]
    exact hwk
  · rw [if_neg h, List.map_append]
    have hnotin : entKey r ∉ tbl.map entKey := by
      intro hmem
      obtain ⟨x, hx, hkey⟩ := List.mem_map.mp hmem
      apply h
      apply List.any_eq_true.mpr
      refine ⟨x, hx, ?_⟩
      unfold entKey at hkey
      unfold entityKeyMatch
      rw [Prod.mk.injEq] at hkey
      rw [hkey.1, hkey.2]
      simp
    refine ((List.perm_append_singleton _ _).nodup_iff).mpr ?_
    exact List.nodup_cons.mpr ⟨hnotin, hwk⟩

theorem wellKeyed_evictDups (tbl : List EntityRow) (sess u : String) (hwk : wellKeyed tbl) :
    wellKeyed (evictDups tbl sess u) := by
  obtain ⟨g, hg, hmap⟩ := evictDups_exists_g tbl sess u
  unfold wellKeyed
  rw [hmap, List.map_map]
  have heq : tbl.map (entKey ∘ g) = tbl.map entKey := by
    apply List.map_congr_left
    intro x _
    show entKey (g x) = entKey x
    rcases hg x with h | h
    · rw [h]
    · rw [h]; rfl
  rw [heq]
  exact hwk

theorem wellKeyed_processEntry (sess : String) (now : Int) (tbl : List EntityRow)
    (e : EntityInput) (hwk : wellKeyed tbl) : wellKeyed (processEntry sess now tbl e) := by
  cases hu : e.username with
  | none =>
    rw [processEntry_eq_none sess now tbl e hu]
    exact wellKeyed_mergeEntity tbl _ hwk
  | some u =>
    by_cases hu' : u = ""
    · rw [hu'] at hu
      rw [processEntry_eq_empty sess now tbl e hu]
      exact wellKeyed_mergeEntity tbl _ hwk
    · rw [processEntry_eq_some sess now tbl e u hu hu']
      exact wellKeyed_evictDups _ sess u (wellKeyed_mergeEntity tbl _ hwk)

theorem wellKeyed_foldl_processEntry (sess : String) (now : Int) :
    ∀ (rows : List EntityInput) (tbl : List EntityRow), wellKeyed tbl →
      wellKeyed (rows.foldl (processEntry sess now) tbl) := by
  intro rows
  induction rows with
  | nil => intro tbl hwk; exact hwk
  | cons e es ih =>
    intro tbl hwk
    rw [List.foldl_cons]
    exact ih _ (wellKeyed_processEntry sess now tbl e hwk)

theorem wellKeyed_process_entities (tbl : List EntityRow) (sess : String) (now : Int)
    (rows : List EntityInput) (hwk : wellKeyed tbl) :
    wellKeyed (process_entities tbl sess now rows) := by
  unfold process_entities
  by_cases h : rows.isEmpty
  · rw [if_pos h]; exact hwk
  · rw [if_neg h]; exact wellKeyed_foldl_processEntry sess now rows tbl hwk

/-! ## Counting usernames through the duplicate-resolution pass -/

theorem length_le_one_of_nodup_const {α : Type} (l : List α) (c : α) (hnd : l.Nodup)
    (hc : ∀ a ∈ l, a = c) : l.length ≤ 1 := by
  match l with
  | [] => simp
  | [a] => simp
  | a :: b :: t =>
    exfalso
    have hab : a = b := (hc a (by simp)).trans (hc b (by simp)).symm
    rw [List.nodup_cons] at hnd
    exact hnd.1 (by rw [hab]; exact List.mem_cons_self b t)

theorem filtered_ids_nodup (tbl : List EntityRow) (p : EntityRow → Bool) (sess : String)
    (hwk : wellKeyed tbl) (hsess : ∀ x ∈ tbl.filter p, x.session_name = sess) :
    ((tbl.filter p).map (fun x => x.id)).Nodup := by
  have hsub : ((tbl.filter p).map entKey).Sublist (tbl.map entKey) :=
    (List.filter_sublist tbl).map entKey
  have hnd : ((tbl.filter p).map entKey).Nodup := List.Nodup.sublist hsub hwk
  have hmapeq : (tbl.filter p).map entKey
      = ((tbl.filter p).map (fun x => x.id)).map (fun i => (sess, i)) := by
    rw [List.map_map]
    apply List.map_congr_left
    intro x hx
    show entKey x = (sess, x.id)
    unfold entKey
    rw [hsess x hx]
  rw [hmapeq] at hnd
  exact List.Nodup.of_map _ hnd

theorem filter_key_length_le (tbl : List EntityRow) (sess : String) (i : Int)
    (hwk : wellKeyed tbl) : (tbl.filter (entityKeyMatch sess i)).length ≤ 1 := by
  have hsub : ((tbl.filter (entityKeyMatch sess i)).map entKey).Sublist (tbl.map entKey) :=
    (List.filter_sublist tbl).map entKey
  have hnd : ((tbl.filter (entityKeyMatch sess i)).map entKey).Nodup :=
    List.Nodup.sublist hsub hwk
  have hconst : ∀ k ∈ (tbl.filter (entityKeyMatch sess i)).map entKey, k = (sess, i) := by
    intro k hk
    obtain ⟨x, hx, rfl⟩ := List.mem_map.mp hk
    have hp := (List.mem_filter.mp hx).2
    unfold entityKeyMatch at hp
    rw [Bool.and_eq_true] at hp
    unfold entKey
    rw [eq_of_beq hp.1, eq_of_beq hp.2]
  have := length_le_one_of_nodup_const _ (sess, i) hnd hconst
  rwa [List.length_map] at this

theorem usernameMatch_session (sess u : String) (x : EntityRow)
    (h : usernameMatch sess u x = true) : x.session_name = sess := by
  unfold usernameMatch at h
  rw [Bool.and_eq_true] at h
  exact eq_of_beq h.1

theorem usernameCount_evictDups_self_le (tbl : List EntityRow) (sess u : String)
    (hwk : wellKeyed tbl) :
    usernameCount (evictDups tbl sess u) sess u ≤ 1 := by
  rw [evictDups_def]
  by_cases h1 : 1 < (dupRows tbl sess u).length
  case neg =>
    rw [if_neg h1]
    unfold usernameCount
    rw [← dupRows_length]
    omega
  rw [if_pos h1]
  have hlen0 : ((dupRows tbl sess u).dropLast.map Prod.fst).length
      = (dupRows tbl sess u).length - 1 := by
    rw [List.length_map, List.length_dropLast]
  have hne : ¬((dupRows tbl sess u).dropLast.map Prod.fst).isEmpty = true := by
    intro hcontra
    rw [List.isEmpty_iff_length_eq_zero] at hcontra
    omega
  rw [if_neg hne]
  have hDne : dupRows tbl sess u ≠ [] := by
    intro hnil
    rw [hnil] at h1
    simp at h1
  have hsess : ∀ x ∈ tbl.filter (usernameMatch sess u), x.session_name = sess := by
    intro x hx
    exact usernameMatch_session sess u x (List.mem_filter.mp hx).2
  have hidnodup := filtered_ids_nodup tbl (usernameMatch sess u) sess hwk hsess
  -- pointwise action of the nulling map on the username predicate
  have hpoint : ∀ x : EntityRow,
      usernameMatch sess u
        (if x.session_name == sess &&
            ((dupRows tbl sess u).dropLast.map Prod.fst).contains x.id then
          { x with username := none }
        else x)
      = (usernameMatch sess u x &&
          !(((dupRows tbl sess u).dropLast.map Prod.fst).contains x.id)) := by
    intro x
    cases hs : (x.session_name == sess) with
    | false =>
      rw [if_neg (by simp)]
      unfold usernameMatch
      rw [hs]
      simp
    | true =>
      cases hcc : ((dupRows tbl sess u).dropLast.map Prod.fst).contains x.id with
      | false =>
        rw [if_neg (by simp)]
        simp
      | true =>
        rw [if_pos (by simp)]
        unfold usernameMatch
        simp [hs]
  unfold usernameCount
  rw [← List.countP_eq_length_filter, List.countP_map]
  rw [List.countP_congr (fun x _ => by rw [Function.comp_apply, hpoint x])]
  rw [show (fun x => usernameMatch sess u x &&
        !(((dupRows tbl sess u).dropLast.map Prod.fst).contains x.id))
      = (fun x => !(((dupRows tbl sess u).dropLast.map Prod.fst).contains x.id) &&
          usernameMatch sess u x) from funext (fun x => Bool.and_comm _ _)]
  rw [← List.countP_filter]
  -- every surviving duplicate has the last row's id
  have hbound : (tbl.filter (usernameMatch sess u)).countP
      (fun x => !(((dupRows tbl sess u).dropLast.map Prod.fst).contains x.id))
      ≤ (tbl.filter (usernameMatch sess u)).countP
        (fun x => x.id == ((dupRows tbl sess u).getLast hDne).1) := by
    apply List.countP_mono_left
    intro x hx hnc
    have hmem : (x.id, x.date) ∈ dupRows tbl sess u := mem_dupRows tbl sess u x hx
    rw [← List.dropLast_concat_getLast hDne, List.mem_append] at hmem
    rcases hmem with hin | hin
    · exfalso
      have : x.id ∈ (dupRows tbl sess u).dropLast.map Prod.fst :=
        List.mem_map.mpr ⟨(x.id, x.date), hin, rfl⟩
      rw [Bool.not_eq_true'] at hnc
      rw [← List.elem_iff] at this
      rw [show ((dupRows tbl sess u).dropLast.map Prod.fst).contains x.id
          = ((dupRows tbl sess u).dropLast.map Prod.fst).elem x.id from rfl] at hnc
      rw [this] at hnc
      exact Bool.noConfusion hnc
    · have : (x.id, x.date) = (dupRows tbl sess u).getLast hDne := by simpa using hin
      rw [show x.id = ((dupRows tbl sess u).getLast hDne).1 from by rw [← this]]
      simp
  apply le_trans hbound
  rw [show (fun x : EntityRow => x.id == ((dupRows tbl sess u).getLast hDne).1)
      = ((fun i : Int => i == ((dupRows tbl sess u).getLast hDne).1) ∘ (fun x => x.id))
    from rfl]
  rw [← List.countP_map, ← List.count_eq_countP]
  exact List.nodup_iff_count_le_one.mp hidnodup _

theorem usernameCount_evictDups_le (tbl : List EntityRow) (sess u s v : String) :
    usernameCount (evictDups tbl sess u) s v ≤ usernameCount tbl s v := by
  obtain ⟨g, hg, hmap⟩ := evictDups_exists_g tbl sess u
  rw [hmap]
  unfold usernameCount
  rw [← List.countP_eq_length_filter, ← List.countP_eq_length_filter, List.countP_map]
  apply List.countP_mono_left
  intro x _ hx
  have hgx : usernameMatch s v (g x) = true := hx
  rcases hg x with h | h
  · rwa [h] at hgx
  · exfalso
    rw [h] at hgx
    unfold usernameMatch at hgx
    simp at hgx

theorem usernameCount_mergeEntity_le (tbl : List EntityRow) (r : EntityRow) (s v : String)
    (hr : usernameMatch s v r = false) :
    usernameCount (mergeEntity tbl r) s v ≤ usernameCount tbl s v := by
  unfold usernameCount
  rw [← List.countP_eq_length_filter, ← List.countP_eq_length_filter]
  exact upsert_countP_le _ _ tbl r hr

theorem processEntry_count_le (sess : String) (now : Int) (tbl : List EntityRow)
    (e : EntityInput) (hwk : wellKeyed tbl) (hcnt : ∀ s v, usernameCount tbl s v ≤ 1)
    (hne : e.username ≠ some "") (s v : String) :
    usernameCount (processEntry sess now tbl e) s v ≤ 1 := by
  cases hu : e.username with
  | none =>
    rw [processEntry_eq_none sess now tbl e hu]
    have hr : usernameMatch s v (entityRowOf sess now e) = false := by
      cases hb : usernameMatch s v (entityRowOf sess now e)
      · rfl
      · exfalso
        unfold usernameMatch at hb
        rw [Bool.and_eq_true] at hb
        have h2 : (entityRowOf sess now e).username = some v := eq_of_beq hb.2
        rw [show (entityRowOf sess now e).username = e.username from rfl, hu] at h2
        exact Option.noConfusion h2
    exact le_trans (usernameCount_mergeEntity_le tbl _ s v hr) (hcnt s v)
  | some u =>
    have hu' : u ≠ "" := by
      intro h
      exact hne (by rw [hu, h])
    rw [processEntry_eq_some sess now tbl e u hu hu']
    by_cases hsv : s = sess ∧ v = u
    · obtain ⟨hs, hv⟩ := hsv
      rw [hs, hv]
      exact usernameCount_evictDups_self_le _ sess u (wellKeyed_mergeEntity tbl _ hwk)
    · apply le_trans (usernameCount_evictDups_le _ sess u s v)
      have hr : usernameMatch s v (entityRowOf sess now e) = false := by
        cases hb : usernameMatch s v (entityRowOf sess now e)
        · rfl
        · exfalso
          unfold usernameMatch at hb
          rw [Bool.and_eq_true] at hb
          have h1 : (entityRowOf sess now e).session_name = s := eq_of_beq hb.1
          have h2 : (entityRowOf sess now e).username = some v := eq_of_beq hb.2
          rw [show (entityRowOf sess now e).session_name = sess from rfl] at h1
          rw [show (entityRowOf sess now e).username = e.username from rfl, hu] at h2
          injection h2 with h2
          exact hsv ⟨h1.symm, h2.symm⟩
      exact le_trans (usernameCount_mergeEntity_le tbl _ s v hr) (hcnt s v)

theorem foldl_processEntry_count_le (sess : String) (now : Int) :
    ∀ (rows : List EntityInput) (tbl : List EntityRow), wellKeyed tbl →
      (∀ s v, usernameCount tbl s v ≤ 1) →
      (∀ e ∈ rows, e.username ≠ some "") →
      ∀ s v, usernameCount (rows.foldl (processEntry sess now) tbl) s v ≤ 1 := by
  intro rows
  induction rows with
  | nil =>
    intro tbl _ hcnt _ s v
    exact hcnt s v
  | cons e es ih =>
    intro tbl hwk hcnt hrows s v
    rw [List.foldl_cons]
    exact ih (processEntry sess now tbl e)
      (wellKeyed_processEntry sess now tbl e hwk)
      (fun s' v' => processEntry_count_le sess now tbl e hwk hcnt (hrows e (by simp)) s' v')
      (fun e' he' => hrows e' (by simp [he'])) s v

theorem process_entities_count_le (tbl : List EntityRow) (sess : String) (now : Int)
    (rows : List EntityInput) (hwk : wellKeyed tbl)
    (hcnt : ∀ s v, usernameCount tbl s v ≤ 1)
    (hrows : ∀ e ∈ rows, e.username ≠ some "") (s v : String) :
    usernameCount (process_entities tbl sess now rows) s v ≤ 1 := by
  unfold process_entities
  by_cases h : rows.isEmpty
  · rw [if_pos h]; exact hcnt s v
  · rw [if_neg h]; exact foldl_processEntry_count_le sess now rows tbl hwk hcnt hrows s v

theorem applyBatches_inv :
    ∀ (batches : List (String × Int × List EntityInput)) (tbl : List EntityRow),
      wellKeyed tbl → (∀ s v, usernameCount tbl s v ≤ 1) →
      (∀ b ∈ batches, ∀ e ∈ b.2.2, e.username ≠ some "") →
      wellKeyed (batches.foldl (fun acc b => process_entities acc b.1 b.2.1 b.2.2) tbl) ∧
      ∀ s v,
        usernameCount (batches.foldl (fun acc b => process_entities acc b.1 b.2.1 b.2.2) tbl)
          s v ≤ 1 := by
  intro batches
  induction batches with
  | nil =>
    intro tbl hwk hcnt _
    exact ⟨hwk, hcnt⟩
  | cons b bs ih =>
    intro tbl hwk hcnt hok
    rw [List.foldl_cons]
    exact ih _ (wellKeyed_process_entities tbl b.1 b.2.1 b.2.2 hwk)
      (fun s v => process_entities_count_le tbl b.1 b.2.1 b.2.2 hwk hcnt (hok b (by simp)) s v)
      (fun b' hb' => hok b' (by simp [hb']))

/-! ## C1: username uniqueness after every batch upsert -/

/--
C1: after any sequence of Entity Cache batch upserts (each `process_entities`
call with its own session and timestamp) replayed from the empty store, every
non-null username value stored in a session appears on exactly one Entity row
of that session.  The hypothesis on the batches reflects the base class's row
conversion, which only ever produces absent-or-nonempty usernames (`username
or None`); an empty-string username is Python-falsy and would skip the
resolution pass.
-/
theorem username_unique_after_batches (batches : List (String × Int × List EntityInput))
    (hok : ∀ b ∈ batches, ∀ e ∈ b.2.2, e.username ≠ some "") (s u : String)
    (hpresent : ∃ x ∈ applyBatches batches, x.session_name = s ∧ x.username = some u) :
    usernameCount (applyBatches batches) s u = 1 := by
  have hinv := applyBatches_inv batches [] (by simp [wellKeyed])
    (fun s v => by simp [usernameCount]) hok
  have hle : usernameCount (applyBatches batches) s u ≤ 1 := hinv.2 s u
  have hge : 1 ≤ usernameCount (applyBatches batches) s u := by
    obtain ⟨x, hx, hsx, hux⟩ := hpresent
    have hmem : x ∈ (applyBatches batches).filter (usernameMatch s u) := by
      apply List.mem_filter.mpr
      refine ⟨hx, ?_⟩
      unfold usernameMatch
      rw [hsx, hux]
      simp
    unfold usernameCount
    exact List.length_pos.mpr (List.ne_nil_of_mem hmem)
  omega

/--
Witness for C1: two batches for session `"s"`, both writing username `"u"`
for different peer ids at different timestamps; after the second call the
username `"u"` is present and appears on exactly one row.
-/
theorem username_unique_after_batches_witness :
    (∀ b ∈ ([("s", (5 : Int), [⟨1, 10, some "u", none, none⟩]),
             ("s", (9 : Int), [⟨2, 20, some "u", none, none⟩])] :
        List (String × Int × List EntityInput)), ∀ e ∈ b.2.2, e.username ≠ some "")
    ∧ (∃ x ∈ applyBatches
          [("s", (5 : Int), [⟨1, 10, some "u", none, none⟩]),
           ("s", (9 : Int), [⟨2, 20, some "u", none, none⟩])],
        x.session_name = "s" ∧ x.username = some "u")
    ∧ usernameCount
        (applyBatches
          [("s", (5 : Int), [⟨1, 10, some "u", none, none⟩]),
           ("s", (9 : Int), [⟨2, 20, some "u", none, none⟩])]) "s" "u" = 1 :=
  ⟨by decide, by decide,
    username_unique_after_batches
      [("s", (5 : Int), [⟨1, 10, some "u", none, none⟩]),
       ("s", (9 : Int), [⟨2, 20, some "u", none, none⟩])]
      (by decide) "s" "u" (by decide)⟩

/-! ## C8: entity upsert is keyed by (session, peer id) -/

theorem filter_map_replace_eq {α : Type} (km : α → Bool) (r : α) (hr : km r = true) :
    ∀ tbl : List α,
      (tbl.map (fun x => if km x then r else x)).filter km
        = (tbl.filter km).map (fun _ => r) := by
  intro tbl
  induction tbl with
  | nil => rfl
  | cons x xs ih =>
    cases hkx : km x
    · simp [List.filter_cons, hkx, ih]
    · simp [List.filter_cons, hkx, hr, ih]

theorem filter_key_mergeEntity (tbl : List EntityRow) (r : EntityRow) (hwk : wellKeyed tbl) :
    (mergeEntity tbl r).filter (entityKeyMatch r.session_name r.id) = [r] := by
  have hr : entityKeyMatch r.session_name r.id r = true := by
    unfold entityKeyMatch
    simp
  unfold mergeEntity upsert
  by_cases h : tbl.any (entityKeyMatch r.session_name r.id) = true
  · rw [if_pos h, filter_map_replace_eq _ r hr tbl]
    have hle := filter_key_length_le tbl r.session_name r.id hwk
    have hge : 0 < (tbl.filter (entityKeyMatch r.session_name r.id)).length := by
      obtain ⟨x, hx, hkx⟩ := List.any_eq_true.mp h
      exact List.length_pos.mpr (List.ne_nil_of_mem (List.mem_filter.mpr ⟨hx, hkx⟩))
    have hlen1 : (tbl.filter (entityKeyMatch r.session_name r.id)).length = 1 := by omega
    obtain ⟨a, ha⟩ := List.length_eq_one.mp hlen1
    rw [ha]
    rfl
  · rw [if_neg h, List.filter_append]
    have h0 : tbl.filter (entityKeyMatch r.session_name r.id) = [] := by
      rw [List.filter_eq_nil_iff]
      intro a ha hka
      exact h (List.any_eq_true.mpr ⟨a, ha, hka⟩)
    rw [h0]
    simp [List.filter_cons, hr]

/-- Every row present after one `process_entities` iteration either carries the
written entry's key or descends from a pre-existing row, at most with its
username cleared. -/
theorem processEntry_provenance (sess : String) (now : Int) (tbl : List EntityRow)
    (e : EntityInput) :
    ∀ y ∈ processEntry sess now tbl e,
      (y.session_name = sess ∧ y.id = e.id) ∨
      ∃ x ∈ tbl, y = x ∨ y = { x with username := none } := by
  intro y hy
  have hmerge : ∀ z ∈ mergeEntity tbl (entityRowOf sess now e),
      (z.session_name = sess ∧ z.id = e.id) ∨ z ∈ tbl := by
    intro z hz
    rcases mem_upsert _ tbl _ z hz with h | h
    · left
      rw [h]
      exact ⟨rfl, rfl⟩
    · right; exact h
  cases hu : e.username with
  | none =>
    rw [processEntry_eq_none sess now tbl e hu] at hy
    rcases hmerge y hy with h | h
    · exact Or.inl h
    · exact Or.inr ⟨y, h, Or.inl rfl⟩
  | some u =>
    by_cases hu' : u = ""
    · rw [hu'] at hu
      rw [processEntry_eq_empty sess now tbl e hu] at hy
      rcases hmerge y hy with h | h
      · exact Or.inl h
      · exact Or.inr ⟨y, h, Or.inl rfl⟩
    · rw [processEntry_eq_some sess now tbl e u hu hu'] at hy
      obtain ⟨g, hg, hmap⟩ :=
        evictDups_exists_g (mergeEntity tbl (entityRowOf sess now e)) sess u
      rw [hmap] at hy
      obtain ⟨z, hz, hgz⟩ := List.mem_map.mp hy
      rcases hmerge z hz with hzl | hzr
      · left
        rcases hg z with hgid | hgnull
        · rw [← hgz, hgid]; exact hzl
        · rw [← hgz, hgnull]; exact hzl
      · rcases hg z with hgid | hgnull
        · exact Or.inr ⟨z, hzr, Or.inl (by rw [← hgz, hgid])⟩
        · exact Or.inr ⟨z, hzr, Or.inr (by rw [← hgz, hgnull])⟩

theorem upsert_countP_le_one {α : Type} (km p : α → Bool) (tbl : List α) (r : α)
    (hp : p r = true) (h0 : ∀ x ∈ tbl, km x = false → p x = false)
    (hkm : tbl.countP km ≤ 1) :
    (upsert km tbl r).countP p ≤ 1 := by
  unfold upsert
  by_cases h : tbl.any km = true
  · rw [if_pos h, List.countP_map]
    apply le_trans (List.countP_mono_left ?_) hkm
    intro x hx hpx
    cases hk : km x
    · exfalso
      have hfx : (p ∘ fun x => if km x then r else x) x = p x := by
        simp [Function.comp, hk]
      rw [hfx, h0 x hx hk] at hpx
      exact Bool.noConfusion hpx
    · rfl
  · rw [if_neg h, List.countP_append]
    have hz : tbl.countP p = 0 := by
      rw [List.countP_eq_zero]
      intro a ha
      have hk : km a = false := by
        cases hkk : km a
        · rfl
        · exact absurd (List.any_eq_true.mpr ⟨a, ha, hkk⟩) h
      rw [h0 a ha hk]
      simp
    rw [hz]
    simp [List.countP_cons, hp]

/-- One `process_entities` call writing a single entry whose username collides
with no other row of the session: the rows carrying the written key afterwards
are exactly the freshly written row. -/
theorem process_entities_single_filter (tbl : List EntityRow) (sess : String) (now : Int)
    (e : EntityInput) (hwk : wellKeyed tbl)
    (hcol : ∀ x ∈ tbl, x.session_name = sess → x.id ≠ e.id →
      x.username ≠ e.username ∨ e.username = none) :
    (process_entities tbl sess now [e]).filter (entityKeyMatch sess e.id)
      = [entityRowOf sess now e] := by
  have hpe : process_entities tbl sess now [e] = processEntry sess now tbl e := rfl
  rw [hpe]
  have hkey : (mergeEntity tbl (entityRowOf sess now e)).filter (entityKeyMatch sess e.id)
      = [entityRowOf sess now e] := filter_key_mergeEntity tbl (entityRowOf sess now e) hwk
  cases hu : e.username with
  | none =>
    rw [processEntry_eq_none sess now tbl e hu]
    exact hkey
  | some u =>
    by_cases hu' : u = ""
    · rw [hu'] at hu
      rw [processEntry_eq_empty sess now tbl e hu]
      exact hkey
    · rw [processEntry_eq_some sess now tbl e u hu hu']
      have hcle : ((mergeEntity tbl (entityRowOf sess now e)).filter
          (usernameMatch sess u)).length ≤ 1 := by
        rw [← List.countP_eq_length_filter]
        refine upsert_countP_le_one (entityKeyMatch sess e.id) (usernameMatch sess u) tbl
          (entityRowOf sess now e) ?_ ?_ ?_
        · unfold usernameMatch
          show ((entityRowOf sess now e).session_name == sess &&
            (entityRowOf sess now e).username == some u) = true
          rw [show (entityRowOf sess now e).username = e.username from rfl, hu]
          simp [entityRowOf]
        · intro x hx hk
          cases hb : usernameMatch sess u x
          · rfl
          · exfalso
            have hsx : x.session_name = sess := usernameMatch_session sess u x hb
            have hidx : x.id ≠ e.id := by
              intro hid
              have hkt : entityKeyMatch sess e.id x = true := by
                unfold entityKeyMatch
                rw [hsx, hid]
                simp
              rw [hkt] at hk
              exact Bool.noConfusion hk
            rcases hcol x hx hsx hidx with hne | hnone
            · unfold usernameMatch at hb
              rw [Bool.and_eq_true] at hb
              exact hne ((eq_of_beq hb.2).trans hu.symm)
            · rw [hu] at hnone
              exact Option.noConfusion hnone
        · rw [List.countP_eq_length_filter]
          exact filter_key_length_le tbl sess e.id hwk
      have hnoop : evictDups (mergeEntity tbl (entityRowOf sess now e)) sess u
          = mergeEntity tbl (entityRowOf sess now e) := by
        rw [evictDups_def]
        rw [if_neg ?_]
        rw [dupRows_length]
        omega
      rw [hnoop]
      exact hkey

/--
C8: entity upsert is keyed by `(session name, peer id)`.  Writing the same
peer id twice (two `process_entities` calls, arbitrary intervening table
contents well-keyed, the second write's username colliding with no other row
of the session) leaves exactly one Entity row for that key, and that row
carries the second write's hash, username, phone, name, and timestamp.
-/
theorem entity_upsert_keyed_replaces (tbl : List EntityRow) (sess : String)
    (now1 now2 : Int) (e1 e2 : EntityInput) (hwk : wellKeyed tbl) (hid : e1.id = e2.id)
    (hcol : ∀ x ∈ tbl, x.session_name = sess → x.id ≠ e2.id →
      x.username ≠ e2.username ∨ e2.username = none) :
    (process_entities (process_entities tbl sess now1 [e1]) sess now2 [e2]).filter
        (entityKeyMatch sess e2.id)
      = [⟨sess, e2.id, e2.hash, e2.username, e2.phone, e2.name, some now2⟩] := by
  have hwk1 : wellKeyed (process_entities tbl sess now1 [e1]) :=
    wellKeyed_process_entities tbl sess now1 [e1] hwk
  have hcol1 : ∀ x ∈ process_entities tbl sess now1 [e1], x.session_name = sess →
      x.id ≠ e2.id → x.username ≠ e2.username ∨ e2.username = none := by
    intro x hx hsx hidx
    have hx' : x ∈ processEntry sess now1 tbl e1 := hx
    rcases processEntry_provenance sess now1 tbl e1 x hx' with ⟨_, hxid⟩ | ⟨x0, hx0, hcase⟩
    · exact absurd (hxid.trans hid) hidx
    · rcases hcase with hxe | hxe
      · subst hxe
        exact hcol x hx0 hsx hidx
      · by_cases he2 : e2.username = none
        · exact Or.inr he2
        · left
          intro hcontra
          apply he2
          rw [← hcontra, hxe]
  exact process_entities_single_filter (process_entities tbl sess now1 [e1]) sess now2 e2
    hwk1 hcol1

/--
Witness for C8: starting from the empty table, peer id 1 of session `"s"` is
written twice with entirely different mutable fields; afterwards the key
`("s", 1)` matches exactly one row carrying the second write's fields.
-/
theorem entity_upsert_keyed_replaces_witness :
    wellKeyed ([] : List EntityRow)
    ∧ (⟨1, 10, some "a", none, none⟩ : EntityInput).id
        = (⟨1, 20, some "b", some "p", some "n"⟩ : EntityInput).id
    ∧ (∀ x ∈ ([] : List EntityRow), x.session_name = "s" → x.id ≠ (1 : Int) →
        x.username ≠ some "b" ∨ (some "b" : Option String) = none)
    ∧ (process_entities (process_entities [] "s" 5 [⟨1, 10, some "a", none, none⟩]) "s" 9
        [⟨1, 20, some "b", some "p", some "n"⟩]).filter (entityKeyMatch "s" 1)
      = [⟨"s", 1, 20, some "b", some "p", some "n", some 9⟩] :=
  ⟨by simp [wellKeyed], rfl, fun x hx => absurd hx (List.not_mem_nil x),
    entity_upsert_keyed_replaces [] "s" 5 9 ⟨1, 10, some "a", none, none⟩
      ⟨1, 20, some "b", some "p", some "n"⟩ (by simp [wellKeyed]) rfl
      (fun x hx => absurd hx (List.not_mem_nil x))⟩

end TelethonSql
